import Mathlib

/-!
# RedCoconut SQL builder — verification of the core generator

Shallow embedding of the core logic of `src/App.tsx` (the value-coercion and
statement-generation functions `chunkArray`, `normalizeIdentifier`,
`quoteIdentifier`, `toSqlLiteral`, `extraValueToSql`, `buildInsertScript`,
and the null-token configuration pipeline of the options form).

JavaScript strings are modelled as Lean `String` (a wrapper around
`List Char`), and the JavaScript string builtins used by the source
(`trim`, `toLowerCase`, `replaceAll`, `replace`, `slice`, `split`, `join`,
template interpolation of numbers, `Number(string)`, `Date.toISOString`)
are modelled by the explicit list-level functions below.  The models cover
the ASCII fragment the generator manipulates: whitespace is the four ASCII
whitespace characters of `Char.isWhitespace`, and case mapping is ASCII
case mapping.
-/

set_option maxHeartbeats 1000000
set_option maxRecDepth 100000

namespace RedCoconut

/-! ## String toolkit: models of the JavaScript builtins used by the source -/

/-- The single-quote character (code point 39), kept as a named
constant so that SQL-literal strings can be built without embedding the
character in source literals. -/
def squote : Char := Char.ofNat 39

/-- Model of JavaScript `String.prototype.trim` on the ASCII fragment:
drop leading and trailing whitespace. -/
def jsTrim (s : String) : String :=
  ⟨((s.data.dropWhile Char.isWhitespace).reverse.dropWhile Char.isWhitespace).reverse⟩

/-- Model of JavaScript character lowercasing (ASCII fragment): map a
capital letter `A`–`Z` to the corresponding small letter, leave every
other character unchanged. -/
def jsToLowerChar (c : Char) : Char :=
  if h : 65 ≤ c.toNat ∧ c.toNat ≤ 90 then
    ⟨UInt32.ofNat (c.toNat + 32), by
      have hv : (UInt32.ofNat (c.toNat + 32)).toNat = c.toNat + 32 :=
        UInt32.toNat_ofNat_of_lt (by simp only [UInt32.size]; omega)
      show Nat.isValidChar _
      rw [hv]
      exact Or.inl (by omega)⟩
  else c

/-- Model of JavaScript `String.prototype.toLowerCase` (ASCII fragment). -/
def jsToLower (s : String) : String := ⟨s.data.map jsToLowerChar⟩

/-- Model of JavaScript `String.prototype.replaceAll(c, r)` where the
pattern is a single character and the replacement is the string with
character list `r`. -/
def replaceAllChar (q : Char) (r : List Char) (s : String) : String :=
  ⟨s.data.foldr (fun c acc => if c = q then r ++ acc else c :: acc) []⟩

/-- Model of JavaScript `String.prototype.replace(t, r)` with
single-character pattern and replacement: replace the first occurrence
of `t` by `r`. -/
def replaceFirstChar (t r : Char) : List Char → List Char
  | [] => []
  | c :: rest => if c = t then r :: rest else c :: replaceFirstChar t r rest

/-- Model of JavaScript `String.prototype.slice(0, n)` on ASCII strings:
the first `n` characters. -/
def jsSlice (s : String) (n : Nat) : String := ⟨s.data.take n⟩

/-- Model of JavaScript `String.prototype.split(sep)` with a
single-character separator (accumulator-based, structural). -/
def splitCharGo (sep : Char) (acc : List Char) : List Char → List (List Char)
  | [] => [acc.reverse]
  | c :: rest =>
    if c = sep then acc.reverse :: splitCharGo sep [] rest
    else splitCharGo sep (c :: acc) rest

/-- Model of JavaScript `String.prototype.split(sep)` with a
single-character separator. -/
def jsSplitChar (sep : Char) (s : String) : List String :=
  (splitCharGo sep [] s.data).map (fun l => ⟨l⟩)

/-- Model of JavaScript `Array.prototype.join(sep)` for arrays of strings. -/
def joinSep (sep : String) : List String → String
  | [] => ""
  | [x] => x
  | x :: y :: rest => x ++ sep ++ joinSep sep (y :: rest)

/-- The decimal-digit character for `n % 10` (code points 48–57). -/
def digitChar10 (n : Nat) : Char :=
  ⟨UInt32.ofNat (48 + n % 10), by
    have hm : n % 10 < 10 := Nat.mod_lt _ (by omega)
    have hv : (UInt32.ofNat (48 + n % 10)).toNat = 48 + n % 10 :=
      UInt32.toNat_ofNat_of_lt (by simp only [UInt32.size]; omega)
    show Nat.isValidChar _
    rw [hv]
    exact Or.inl (by omega)⟩

/-- Decimal digit list of a natural number, most significant digit first.
The first argument is structural fuel; `n + 1` steps always suffice. -/
def natDigitsGo : Nat → Nat → List Char
  | 0, _ => []
  | fuel + 1, n =>
    if n < 10 then [digitChar10 n]
    else natDigitsGo fuel (n / 10) ++ [digitChar10 (n % 10)]

/-- Model of JavaScript number-to-string conversion for integral values
(`String(n)` and template interpolation): decimal digits, with a leading
`-` for negative values. -/
def natRepr (n : Nat) : String := ⟨natDigitsGo (n + 1) n⟩

/-- Model of JavaScript number-to-string conversion for negative and
non-negative integral values. -/
def intRepr (i : Int) : String :=
  if i < 0 then ⟨'-' :: (natRepr (-i).toNat).data⟩ else natRepr i.toNat

/-- Two-digit zero-padded decimal rendering (exact for `n < 100`),
as produced inside `Date.prototype.toISOString`. -/
def pad2 (n : Nat) : String := ⟨[digitChar10 (n / 10), digitChar10 (n % 10)]⟩

/-- Three-digit zero-padded decimal rendering (exact for `n < 1000`). -/
def pad3 (n : Nat) : String :=
  ⟨[digitChar10 (n / 100), digitChar10 (n / 10 % 10), digitChar10 (n % 10)]⟩

/-- Four-digit zero-padded decimal rendering (exact for `n < 10000`). -/
def pad4 (n : Nat) : String :=
  ⟨[digitChar10 (n / 1000), digitChar10 (n / 100 % 10), digitChar10 (n / 10 % 10),
    digitChar10 (n % 10)]⟩

/-! ## Data model

The dynamic `unknown` cell type of the source is the closed variant
{string, number, boolean, date, null} (spec §9); JavaScript `undefined`
cells (absent array slots) behave identically to `null` in every
generator path (`cell !== null && cell !== undefined` and the
null/undefined branch of `toSqlLiteral`), so both are modelled by
`CellValue.null`. -/

/-- JavaScript numbers as the generator observes them: integral finite
values, `NaN` and the two infinities.  (Spreadsheet cell numbers are
modelled at integral values; the generator only distinguishes finite
values, whose decimal string it emits, from non-finite ones.) -/
inductive JsNum where
  | int (i : Int)
  | nan
  | posInf
  | negInf
deriving DecidableEq

/-- Model of JavaScript `Number.isFinite`. -/
def JsNum.isFinite : JsNum → Bool
  | .int _ => true
  | _ => false

/-- Model of JavaScript `String(n)` on `JsNum`. -/
def JsNum.toString : JsNum → String
  | .int i => intRepr i
  | .nan => "NaN"
  | .posInf => "Infinity"
  | .negInf => "-Infinity"

/-- A JavaScript `Date` by its UTC components.  The model of
`toISOString` below is exact for in-range components (year ≤ 9999,
month 1–12, and so on), the range of spreadsheet dates. -/
structure JsDate where
  year : Nat
  month : Nat
  day : Nat
  hour : Nat
  minute : Nat
  second : Nat
  ms : Nat
deriving DecidableEq

/-- Model of JavaScript `Date.prototype.toISOString`:
`YYYY-MM-DDTHH:MM:SS.sssZ` with zero-padded UTC fields. -/
def JsDate.toISOString (d : JsDate) : String :=
  pad4 d.year ++ "-" ++ pad2 d.month ++ "-" ++ pad2 d.day ++ "T" ++
    pad2 d.hour ++ ":" ++ pad2 d.minute ++ ":" ++ pad2 d.second ++ "." ++
    pad3 d.ms ++ "Z"

/-- A spreadsheet cell value (closed variant of the source `unknown` type). -/
inductive CellValue where
  | null
  | str (s : String)
  | num (n : JsNum)
  | bool (b : Bool)
  | date (d : JsDate)
deriving DecidableEq

/-- `type SqlDialect`: mysql, postgresql, sqlite or sqlserver. -/
inductive SqlDialect where
  | mysql
  | postgresql
  | sqlite
  | sqlserver
deriving DecidableEq

/-- The string value of the dialect (template interpolation
`${options.dialect}`). -/
def dialectName : SqlDialect → String
  | .mysql => "mysql"
  | .postgresql => "postgresql"
  | .sqlite => "sqlite"
  | .sqlserver => "sqlserver"

/-- `type ColumnConfig` of the source. -/
structure ColumnConfig where
  sourceIndex : Nat
  sourceName : String
  targetName : String
  «include» : Bool
deriving DecidableEq

/-- `type ExtraColumnMode`: text, number, boolean, null or sql. -/
inductive ExtraColumnMode where
  | text
  | number
  | boolean
  | null
  | sql
deriving DecidableEq

/-- `type ExtraColumnConfig` of the source. -/
structure ExtraColumnConfig where
  id : String
  targetName : String
  «include» : Bool
  mode : ExtraColumnMode
  value : String
deriving DecidableEq

/-- `type GeneratorOptions` of the source.  `rowsPerInsert` is modelled
at integral values (the form control supplies `Number(...) || 1`). -/
structure GeneratorOptions where
  dialect : SqlDialect
  tableName : String
  schemaName : String
  rowsPerInsert : Int
  includeColumnList : Bool
  trimStrings : Bool
  emptyStringAsNull : Bool
  nullTokens : List String
deriving DecidableEq

/-- `defaultOptions` of the source. -/
def defaultOptions : GeneratorOptions :=
  { dialect := .mysql
    tableName := "my_table"
    schemaName := ""
    rowsPerInsert := 250
    includeColumnList := true
    trimStrings := true
    emptyStringAsNull := true
    nullTokens := ["null", "nil", "n/a"] }

/-! ## Models of remaining JavaScript builtins used by the source -/

/-- The backtick character (code point 96). -/
def bquote : Char := Char.ofNat 96

/-- The single-quote character as a one-character string. -/
def sq : String := ⟨[squote]⟩

/-- The value of a decimal digit character, if it is one. -/
def digitVal? (c : Char) : Option Nat :=
  if 48 ≤ c.toNat ∧ c.toNat ≤ 57 then some (c.toNat - 48) else none

/-- Parse a non-empty all-digit character list as a natural number. -/
def parseNatDigits (l : List Char) : Option Nat :=
  if l = [] then none
  else l.foldl (fun acc c =>
    match acc, digitVal? c with
    | some a, some d => some (a * 10 + d)
    | _, _ => none) (some 0)

/-- Parse an unsigned JavaScript numeric literal (integer fragment):
decimal digit runs and the keyword `Infinity`. -/
def parseUnsigned (l : List Char) : Option JsNum :=
  if l = "Infinity".data then some .posInf
  else (parseNatDigits l).map (fun n => .int (n : Int))

/-- Model of the JavaScript builtin `Number(string)` on the fragment the
generator exercises: the input is trimmed; an empty remainder converts
to `+0`; an optionally signed decimal-digit run converts to the integer
it denotes; optionally signed `Infinity` converts to the infinities; any
other input converts to `NaN`.  (Fractional, exponent and hex literals,
which also convert to finite numbers in JavaScript, are outside the
modelled fragment.) -/
def jsStringToNumber (s : String) : JsNum :=
  match (jsTrim s).data with
  | [] => .int 0
  | '-' :: rest =>
    match parseUnsigned rest with
    | some (.int n) => .int (-n)
    | some .posInf => .negInf
    | _ => .nan
  | '+' :: rest => (parseUnsigned rest).getD .nan
  | l => (parseUnsigned l).getD .nan

/-! ## Translation of the source functions (`src/App.tsx`) -/

/-- Fueled worker for `chunkArray`.  The JavaScript loop
`for (let i = 0; i < items.length; i += size)` performs at most
`items.length` iterations whenever `size ≥ 1` (every call site passes
`Math.max(1, ...)`), so `items.length` fuel is always enough. -/
def chunkGo (fuel : Nat) (items : List α) (size : Nat) : List (List α) :=
  match fuel, items with
  | 0, _ => []
  | _ + 1, [] => []
  | fuel + 1, x :: xs => ((x :: xs).take size) :: chunkGo fuel ((x :: xs).drop size) size

/-- `function chunkArray<T>(items: T[], size: number): T[][]` — slice
`items` into consecutive runs of `size` elements. -/
def chunkArray (items : List α) (size : Nat) : List (List α) :=
  chunkGo items.length items size

/-- Worker for `normalizeIdentifier`: `replace(/\s+/g, '_')` — replace
each maximal whitespace run by a single underscore.  The flag records
whether the previous character belonged to a whitespace run. -/
def collapseWsGo : Bool → List Char → List Char
  | _, [] => []
  | inRun, c :: rest =>
    if c.isWhitespace then
      if inRun then collapseWsGo true rest else '_' :: collapseWsGo true rest
    else c :: collapseWsGo false rest

/-- `function normalizeIdentifier(value: string): string` —
`value.trim().replace(/\s+/g, '_')`. -/
def normalizeIdentifier (value : String) : String :=
  ⟨collapseWsGo false (jsTrim value).data⟩

/-- `function quoteIdentifier(identifier: string, dialect: SqlDialect)`. -/
def quoteIdentifier (identifier : String) (dialect : SqlDialect) : String :=
  let value := normalizeIdentifier identifier
  if value = "" then ""
  else if dialect = .mysql ∨ dialect = .sqlite then
    "`" ++ replaceAllChar bquote [bquote, bquote] value ++ "`"
  else if dialect = .sqlserver then
    "[" ++ replaceAllChar ']' [']', ']'] value ++ "]"
  else
    "\"" ++ replaceAllChar '"' ['"', '"'] value ++ "\""

/-- `function toSqlLiteral(value: unknown, options: GeneratorOptions)`. -/
def toSqlLiteral (value : CellValue) (options : GeneratorOptions) : String :=
  match value with
  | .null => "NULL"
  | .date d =>
    sq ++ jsSlice ⟨replaceFirstChar 'T' ' ' d.toISOString.data⟩ 19 ++ sq
  | .num n => if n.isFinite then n.toString else "NULL"
  | .bool b =>
    if options.dialect = .postgresql then (if b then "TRUE" else "FALSE")
    else if b then "1" else "0"
  | .str s =>
    let stringValue := if options.trimStrings then jsTrim s else s
    if options.emptyStringAsNull ∧ stringValue.length = 0 then "NULL"
    else
      let lower := jsToLower stringValue
      if options.nullTokens.any (fun token => token == lower) then "NULL"
      else sq ++ replaceAllChar squote [squote, squote] stringValue ++ sq

/-- `function extraValueToSql(column: ExtraColumnConfig, options)`. -/
def extraValueToSql (column : ExtraColumnConfig) (options : GeneratorOptions) : String :=
  if column.mode = .null then "NULL"
  else if column.mode = .sql then
    let expression := jsTrim column.value
    if expression.length > 0 then expression else "NULL"
  else if column.mode = .number then
    let numeric := jsStringToNumber column.value
    if numeric.isFinite then numeric.toString else "NULL"
  else if column.mode = .boolean then
    let truthy : List String := ["true", "1", "yes", "y", "on"]
    let value := jsToLower (jsTrim column.value)
    let boolValue := truthy.contains value
    if options.dialect = .postgresql then (if boolValue then "TRUE" else "FALSE")
    else if boolValue then "1" else "0"
  else toSqlLiteral (.str column.value) options

/-- The mapped columns that `buildInsertScript` keeps:
`column.include && normalizeIdentifier(column.targetName).length > 0`. -/
def includedSourceColumns (columns : List ColumnConfig) : List ColumnConfig :=
  columns.filter fun column =>
    column.«include» && decide ((normalizeIdentifier column.targetName).length > 0)

/-- The extra columns that `buildInsertScript` keeps. -/
def includedExtraColumnsOf (extraColumns : List ExtraColumnConfig) : List ExtraColumnConfig :=
  extraColumns.filter fun column =>
    column.«include» && decide ((normalizeIdentifier column.targetName).length > 0)

/-- Model of `String(cell)` for a date cell as observed by the blank-row
filter.  Real JavaScript renders a date in a human-readable local form;
the generator only observes whether the trimmed string is empty, and the
ISO rendering used here agrees with the real one on that observation
(both are never whitespace-only). -/
def jsDateString (d : JsDate) : String := d.toISOString

/-- Model of JavaScript `String(cell)` on cell values. -/
def jsCellString : CellValue → String
  | .null => "null"
  | .str s => s
  | .num n => n.toString
  | .bool b => if b then "true" else "false"
  | .date d => jsDateString d

/-- One conjunct of the blank-row filter: the cell is neither null nor
undefined, and its string conversion does not trim to the empty string
(the string conversion is short-circuited away on null cells). -/
def cellNonBlank (cell : CellValue) : Bool :=
  match cell with
  | .null => false
  | cell => jsTrim (jsCellString cell) != ""

/-- The row predicate of the blank-row filter:
`row.some((cell) => ...)`. -/
def rowNonBlank (row : List CellValue) : Bool := row.any cellNonBlank

/-- `rows.filter((row) => row.some(...))` — the surviving rows. -/
def survivingRows (rows : List (List CellValue)) : List (List CellValue) :=
  rows.filter rowNonBlank

/-- The quoted table reference: `schema.table` when the schema name
normalizes non-empty, else just the table. -/
def scriptTableRef (options : GeneratorOptions) : String :=
  let cleanTable := normalizeIdentifier options.tableName
  let schema := normalizeIdentifier options.schemaName
  if schema ≠ "" then
    quoteIdentifier schema options.dialect ++ "." ++ quoteIdentifier cleanTable options.dialect
  else quoteIdentifier cleanTable options.dialect

/-- One VALUES tuple for a surviving row: the source-column literals
(indexed by `sourceIndex`; an out-of-range access is JavaScript
`undefined`, which `toSqlLiteral` sends to `NULL` exactly like `null`)
followed by the extra-column literals. -/
def rowTuple (included : List ColumnConfig) (extras : List ExtraColumnConfig)
    (options : GeneratorOptions) (row : List CellValue) : String :=
  "(" ++ joinSep ", "
    (included.map (fun column => toSqlLiteral (row.getD column.sourceIndex .null) options) ++
      extras.map (fun column => extraValueToSql column options)) ++ ")"

/-- One `INSERT` statement for one batch of tuples. -/
def insertStatement (tableRef columnList : String) (useColumnList : Bool)
    (chunk : List String) : String :=
  if useColumnList then
    "INSERT INTO " ++ tableRef ++ " (" ++ columnList ++ ")\nVALUES\n" ++
      joinSep ",\n" chunk ++ ";"
  else
    "INSERT INTO " ++ tableRef ++ "\nVALUES\n" ++ joinSep ",\n" chunk ++ ";"

/-- `function buildInsertScript(rows, columns, extraColumns, options)`. -/
def buildInsertScript (rows : List (List CellValue)) (columns : List ColumnConfig)
    (extraColumns : List ExtraColumnConfig) (options : GeneratorOptions) : String :=
  let cleanTable := normalizeIdentifier options.tableName
  if cleanTable = "" then ""
  else
    let includedColumns := includedSourceColumns columns
    let includedExtraColumns := includedExtraColumnsOf extraColumns
    if includedColumns.length = 0 ∧ includedExtraColumns.length = 0 then ""
    else
      let filteredRows := survivingRows rows
      if filteredRows.length = 0 then ""
      else
        let tableRef := scriptTableRef options
        let mappedColumns :=
          includedColumns.map fun column => quoteIdentifier column.targetName options.dialect
        let customColumns :=
          includedExtraColumns.map fun column => quoteIdentifier column.targetName options.dialect
        let columnList := joinSep ", " (mappedColumns ++ customColumns)
        let rowValues := filteredRows.map (rowTuple includedColumns includedExtraColumns options)
        let chunks := chunkArray rowValues (max 1 options.rowsPerInsert).toNat
        let useColumnList := options.includeColumnList || decide (includedExtraColumns.length > 0)
        let statements := chunks.map (insertStatement tableRef columnList useColumnList)
        joinSep "\n"
          ["-- Generated by RedCoconut SQL Builder",
            "-- Dialect: " ++ dialectName options.dialect,
            "-- Rows: " ++ natRepr filteredRows.length,
            "",
            joinSep "\n\n" statements]

/-- The null-token configuration pipeline of the options form
(`src/App.tsx` lines 526–530): the typed value is split on commas, each
piece trimmed and lowercased, and empty pieces dropped
(`.filter(Boolean)`). -/
def parseNullTokens (s : String) : List String :=
  ((jsSplitChar ',' s).map (fun token => jsToLower (jsTrim token))).filter
    (fun token => token != "")


/-! ## Word splitting (specification-side view of the Identifier Normalizer)

The claim describes normalization as trimming plus collapsing each
internal whitespace run to one underscore — equivalently, joining the
maximal whitespace-free runs of the input with single underscores.  The
functions below express that reading independently of the translated
code, to be proved equal to `normalizeIdentifier`. -/

/-- A character that is not whitespace. -/
def nonWsChar (c : Char) : Bool := !c.isWhitespace

/-- Fueled splitter into maximal whitespace-free runs. -/
def wordsGo : Nat → List Char → List (List Char)
  | 0, _ => []
  | _ + 1, [] => []
  | fuel + 1, c :: rest =>
    if c.isWhitespace then wordsGo fuel rest
    else (c :: rest.takeWhile nonWsChar) :: wordsGo fuel (rest.dropWhile nonWsChar)

/-- The maximal whitespace-free runs of a string, in order. -/
def wordsOf (s : String) : List (List Char) := wordsGo s.data.length s.data

/-- Join character runs with single underscores. -/
def joinUnderscore : List (List Char) → List Char
  | [] => []
  | [w] => w
  | w :: w2 :: rest => w ++ '_' :: joinUnderscore (w2 :: rest)

/-! ## Generic helper lemmas -/

theorem strMk_append (l1 l2 : List Char) :
    (⟨l1⟩ : String) ++ (⟨l2⟩ : String) = ⟨l1 ++ l2⟩ := rfl

theorem strMk_eq_iff (l1 l2 : List Char) :
    (⟨l1⟩ : String) = (⟨l2⟩ : String) ↔ l1 = l2 := by
  constructor
  · intro h
    injection h
  · intro h
    rw [h]

theorem strAppend_assoc (a b c : String) : a ++ b ++ c = a ++ (b ++ c) := by
  cases a
  cases b
  cases c
  simp [strMk_append]

theorem strEmpty_append (a : String) : "" ++ a = a := by
  cases a
  simp [show ("" : String) = ⟨[]⟩ from rfl, strMk_append]

theorem strLength_eq (s : String) : s.length = s.data.length := rfl

theorem strEq_empty_iff (s : String) : s = "" ↔ s.data = [] := by
  cases s
  rw [show ("" : String) = ⟨[]⟩ from rfl, strMk_eq_iff]

/-- `replaceAllChar` written as a per-character flat map. -/
theorem replaceAllChar_eq_bind (q : Char) (r : List Char) (s : String) :
    replaceAllChar q r s = ⟨s.data.flatMap fun c => if c = q then r else [c]⟩ := by
  rw [replaceAllChar, strMk_eq_iff]
  induction s.data with
  | nil => rfl
  | cons c l ih =>
    simp only [List.foldr_cons, List.flatMap_cons, ih]
    by_cases h : c = q <;> simp [h]

theorem joinSep_nil (sep : String) : joinSep sep [] = "" := rfl

theorem joinSep_singleton (sep x : String) : joinSep sep [x] = x := rfl

theorem joinSep_cons_cons (sep x y : String) (rest : List String) :
    joinSep sep (x :: y :: rest) = x ++ sep ++ joinSep sep (y :: rest) := rfl

/-! ## Lemmas about `chunkGo` and `chunkArray` -/

theorem chunkGo_join {α : Type} (fuel : Nat) (items : List α) (size : Nat)
    (hf : items.length ≤ fuel) (hs : 0 < size) :
    (chunkGo fuel items size).flatten = items := by
  induction fuel generalizing items with
  | zero =>
    have : items = [] := List.length_eq_zero.mp (Nat.le_zero.mp hf)
    subst this
    rfl
  | succ fuel ih =>
    cases items with
    | nil => rfl
    | cons x xs =>
      have hlen : ((x :: xs).drop size).length ≤ fuel := by
        simp only [List.length_drop, List.length_cons] at *
        omega
      simp only [chunkGo, List.flatten_cons, ih _ hlen, List.take_append_drop]

theorem chunkGo_mem {α : Type} (fuel : Nat) (items : List α) (size : Nat)
    (hs : 0 < size) :
    ∀ c ∈ chunkGo fuel items size, c ≠ [] ∧ c.length ≤ size := by
  induction fuel generalizing items with
  | zero =>
    intro c hc
    simp [chunkGo] at hc
  | succ fuel ih =>
    intro c hc
    cases items with
    | nil => simp [chunkGo] at hc
    | cons x xs =>
      simp only [chunkGo, List.mem_cons] at hc
      rcases hc with rfl | hc
      · refine ⟨?_, ?_⟩
        · cases size with
          | zero => omega
          | succ n => simp [List.take_succ_cons]
        · simp only [List.length_take]
          exact Nat.min_le_left _ _
      · exact ih _ c hc

/-- `chunkArray` partitions its input: concatenating the chunks gives
back the original list, in order. -/
theorem chunkArray_join {α : Type} (items : List α) (size : Nat) (hs : 0 < size) :
    (chunkArray items size).flatten = items :=
  chunkGo_join items.length items size (Nat.le_refl _) hs

/-- Every chunk of `chunkArray` is non-empty and no longer than `size`. -/
theorem chunkArray_mem {α : Type} (items : List α) (size : Nat) (hs : 0 < size) :
    ∀ c ∈ chunkArray items size, c ≠ [] ∧ c.length ≤ size :=
  chunkGo_mem items.length items size hs

/-- The batch size `Math.max(1, options.rowsPerInsert)` is positive. -/
theorem batchSize_pos (o : GeneratorOptions) : 0 < (max 1 o.rowsPerInsert).toNat := by
  have h : (1 : Int) ≤ max 1 o.rowsPerInsert := le_max_left _ _
  omega

/-! ## Unfolding lemmas for `buildInsertScript` -/

/-- When any of the three guards fails, the script is empty. -/
theorem script_empty_of_degenerate (rows : List (List CellValue))
    (columns : List ColumnConfig) (extraColumns : List ExtraColumnConfig)
    (options : GeneratorOptions)
    (h : normalizeIdentifier options.tableName = "" ∨
      (includedSourceColumns columns = [] ∧ includedExtraColumnsOf extraColumns = []) ∨
      survivingRows rows = []) :
    buildInsertScript rows columns extraColumns options = "" := by
  unfold buildInsertScript
  rcases h with h | ⟨h1, h2⟩ | h
  · simp [h]
  · simp [h1, h2]
  · simp [h]

/-- When all three guards hold, the script is the header followed by the
statements. -/
theorem script_eq_of_guards (rows : List (List CellValue))
    (columns : List ColumnConfig) (extraColumns : List ExtraColumnConfig)
    (options : GeneratorOptions)
    (h1 : normalizeIdentifier options.tableName ≠ "")
    (h2 : ¬(includedSourceColumns columns = [] ∧ includedExtraColumnsOf extraColumns = []))
    (h3 : survivingRows rows ≠ []) :
    buildInsertScript rows columns extraColumns options =
      joinSep "\n"
        ["-- Generated by RedCoconut SQL Builder",
          "-- Dialect: " ++ dialectName options.dialect,
          "-- Rows: " ++ natRepr (survivingRows rows).length,
          "",
          joinSep "\n\n"
            ((chunkArray
                ((survivingRows rows).map
                  (rowTuple (includedSourceColumns columns)
                    (includedExtraColumnsOf extraColumns) options))
                (max 1 options.rowsPerInsert).toNat).map
              (insertStatement (scriptTableRef options)
                (joinSep ", "
                  ((includedSourceColumns columns).map
                      (fun column => quoteIdentifier column.targetName options.dialect) ++
                    (includedExtraColumnsOf extraColumns).map
                      (fun column => quoteIdentifier column.targetName options.dialect)))
                (options.includeColumnList ||
                  decide ((includedExtraColumnsOf extraColumns).length > 0))))] := by
  unfold buildInsertScript
  rw [if_neg h1, if_neg, if_neg]
  · simpa using fun h => h3 (List.length_eq_zero.mp h)
  · intro hc
    exact h2 ⟨List.length_eq_zero.mp hc.1, List.length_eq_zero.mp hc.2⟩

/-! ## Digit-string lemmas -/

theorem digitChar10_toNat (n : Nat) : (digitChar10 n).toNat = 48 + n % 10 :=
  UInt32.toNat_ofNat_of_lt (by simp only [UInt32.size]; omega)

theorem digitChar10_ne (n : Nat) (c : Char) (h : ¬(48 ≤ c.toNat ∧ c.toNat ≤ 57)) :
    digitChar10 n ≠ c := by
  intro he
  have := congrArg Char.toNat he
  rw [digitChar10_toNat] at this
  omega

theorem natDigitsGo_all_digits (fuel n : Nat) :
    ∀ c ∈ natDigitsGo fuel n, ∃ k, c = digitChar10 k := by
  induction fuel generalizing n with
  | zero => intro c hc; simp [natDigitsGo] at hc
  | succ fuel ih =>
    intro c hc
    simp only [natDigitsGo] at hc
    split at hc
    · simp only [List.mem_singleton] at hc
      exact ⟨n, hc⟩
    · rcases List.mem_append.mp hc with hc | hc
      · exact ih _ c hc
      · simp only [List.mem_singleton] at hc
        exact ⟨n % 10, hc⟩

theorem natDigitsGo_ne_nil (fuel n : Nat) (h : 0 < fuel) :
    natDigitsGo fuel n ≠ [] := by
  cases fuel with
  | zero => omega
  | succ fuel =>
    simp only [natDigitsGo]
    split
    · simp
    · simp

/-- Every character in a digit run avoids whitespace and letters. -/
theorem dropWhile_eq_self_of_all {p : Char → Bool} {l : List Char}
    (h : ∀ c ∈ l, p c = false) : l.dropWhile p = l := by
  cases l with
  | nil => rfl
  | cons c rest =>
    rw [List.dropWhile_cons, if_neg]
    simp [h c (by simp)]

/-- The rendering of a finite number is never the text `NULL`. -/
theorem intRepr_ne_NULL (i : Int) : intRepr i ≠ "NULL" := by
  have hN : ¬(48 ≤ ('N' : Char).toNat ∧ ('N' : Char).toNat ≤ 57) := by decide
  unfold intRepr
  split
  · intro h
    have hd : '-' :: (natRepr (-i).toNat).data = ['N', 'U', 'L', 'L'] :=
      congrArg String.data h
    have : ('-' : Char) = 'N' := by injection hd
    exact absurd this (by decide)
  · intro h
    have hd : natDigitsGo ((i.toNat) + 1) i.toNat = ['N', 'U', 'L', 'L'] :=
      congrArg String.data h
    have hm : ('N' : Char) ∈ natDigitsGo ((i.toNat) + 1) i.toNat := by
      rw [hd]; simp
    obtain ⟨k, hk⟩ := natDigitsGo_all_digits _ _ _ hm
    exact absurd hk.symm (digitChar10_ne k 'N' hN)

/-- A digit character is not whitespace. -/
theorem digitChar10_not_ws (n : Nat) : (digitChar10 n).isWhitespace = false := by
  have h1 : digitChar10 n ≠ ' ' := digitChar10_ne n ' ' (by decide)
  have h2 : digitChar10 n ≠ '\t' := digitChar10_ne n '\t' (by decide)
  have h3 : digitChar10 n ≠ '\r' := digitChar10_ne n '\r' (by decide)
  have h4 : digitChar10 n ≠ '\n' := digitChar10_ne n '\n' (by decide)
  simp [Char.isWhitespace, h1, h2, h3, h4]

/-- The rendering of a finite number is never whitespace-only. -/
theorem jsTrim_intRepr_ne_empty (i : Int) : jsTrim (intRepr i) ≠ "" := by
  have key : ∀ l : List Char, l ≠ [] → (∀ c ∈ l, c.isWhitespace = false) →
      ((l.dropWhile Char.isWhitespace).reverse.dropWhile Char.isWhitespace).reverse ≠ [] := by
    intro l hne hws
    rw [dropWhile_eq_self_of_all hws,
      dropWhile_eq_self_of_all (fun c hc => hws c (List.mem_reverse.mp hc)),
      List.reverse_reverse]
    exact hne
  rw [Ne, strEq_empty_iff]
  unfold jsTrim intRepr
  split
  · apply key
    · simp
    · intro c hc
      simp only [List.mem_cons] at hc
      rcases hc with rfl | hc
      · decide
      · obtain ⟨k, hk⟩ := natDigitsGo_all_digits _ _ c hc
        rw [hk]; exact digitChar10_not_ws k
  · apply key
    · exact natDigitsGo_ne_nil _ _ (by omega)
    · intro c hc
      obtain ⟨k, hk⟩ := natDigitsGo_all_digits _ _ c hc
      rw [hk]; exact digitChar10_not_ws k

/-! ## Claim C2 -/

/-- C2: `buildInsertScript` returns the empty string (and, being a total
function, never throws) whenever the table name normalizes to empty, or
no mapped or extra column is both included and has a non-empty
normalized target name, or no row survives the blank-row filter. -/
theorem buildInsertScript_degenerate_empty (rows : List (List CellValue))
    (columns : List ColumnConfig) (extraColumns : List ExtraColumnConfig)
    (options : GeneratorOptions)
    (h : normalizeIdentifier options.tableName = "" ∨
      (includedSourceColumns columns = [] ∧ includedExtraColumnsOf extraColumns = []) ∨
      survivingRows rows = []) :
    buildInsertScript rows columns extraColumns options = "" :=
  script_empty_of_degenerate rows columns extraColumns options h

/-- Witness for C2: a whitespace-only table name yields the empty script
even with rows and columns present; so do an empty column set and an
all-blank row set. -/
theorem buildInsertScript_degenerate_empty_witness :
    buildInsertScript [[.str "x"]] [⟨0, "a", "a", true⟩] []
        { defaultOptions with tableName := "  " } = ""
    ∧ buildInsertScript [[.str "x"]] [] [] defaultOptions = ""
    ∧ buildInsertScript [[.str " "], [.null]] [⟨0, "a", "a", true⟩] [] defaultOptions = "" :=
  ⟨buildInsertScript_degenerate_empty _ _ _ _ (Or.inl (by decide)),
    buildInsertScript_degenerate_empty _ _ _ _ (Or.inr (Or.inl (by decide))),
    buildInsertScript_degenerate_empty _ _ _ _ (Or.inr (Or.inr (by decide)))⟩

/-! ## Claim C9 -/

/-- C9: a boolean cell encodes as `TRUE`/`FALSE` under postgresql and as
`1`/`0` under every other dialect; an extra column in boolean mode is
true exactly when its value, trimmed and lowercased, is one of
`true`, `1`, `yes`, `y`, `on`, and then encodes by the same dialect
rule — in particular `yes` gives `TRUE` under postgresql and `1` under
mysql. -/
theorem boolean_encoding_spec :
    (∀ (b : Bool) (o : GeneratorOptions),
      toSqlLiteral (.bool b) o =
        if o.dialect = .postgresql then (if b then "TRUE" else "FALSE")
        else if b then "1" else "0")
  ∧ (∀ (c : ExtraColumnConfig) (o : GeneratorOptions), c.mode = .boolean →
      extraValueToSql c o =
        if o.dialect = .postgresql then
          (if jsToLower (jsTrim c.value) ∈ (["true", "1", "yes", "y", "on"] : List String)
            then "TRUE" else "FALSE")
        else
          (if jsToLower (jsTrim c.value) ∈ (["true", "1", "yes", "y", "on"] : List String)
            then "1" else "0"))
  ∧ extraValueToSql ⟨"x", "flag", true, .boolean, "yes"⟩
      { defaultOptions with dialect := .postgresql } = "TRUE"
  ∧ extraValueToSql ⟨"x", "flag", true, .boolean, "yes"⟩
      { defaultOptions with dialect := .mysql } = "1" := by
  refine ⟨?_, ?_, by decide, by decide⟩
  · intro b o
    rfl
  · intro c o hmode
    obtain ⟨cid, ctn, cinc, cmode, cval⟩ := c
    cases hmode
    simp only [extraValueToSql, reduceCtorEq, if_false, if_true, reduceIte]
    simp [List.contains, List.elem_eq_mem]

/-- Witness for C9 (the boolean-mode conjunct has a mode hypothesis):
instantiating the dialect rule at value `on` under sqlite yields `1`. -/
theorem boolean_encoding_spec_witness :
    extraValueToSql ⟨"x", "flag", true, .boolean, " ON "⟩
      { defaultOptions with dialect := .sqlite } = "1" := by
  have h := boolean_encoding_spec.2.1 ⟨"x", "flag", true, .boolean, " ON "⟩
    { defaultOptions with dialect := .sqlite } rfl
  rw [h]
  decide

/-! ## Claim C10 -/

/-- C10: in number mode an empty or whitespace-only value emits the
literal `0` (JavaScript `Number` of an empty string is `0`, which is
finite), and `NULL` is emitted exactly when the value converts to a
non-finite number. -/
theorem extraNumber_empty_emits_zero (column : ExtraColumnConfig)
    (o : GeneratorOptions) (hmode : column.mode = .number) :
    (jsTrim column.value = "" → extraValueToSql column o = "0")
  ∧ (extraValueToSql column o = "NULL" ↔
      (jsStringToNumber column.value).isFinite = false)
  ∧ ("0" : String) ≠ "NULL" := by
  obtain ⟨cid, ctn, cinc, cmode, cval⟩ := column
  cases hmode
  have hunf : extraValueToSql ⟨cid, ctn, cinc, .number, cval⟩ o =
      (if (jsStringToNumber cval).isFinite then (jsStringToNumber cval).toString
        else "NULL") := by
    simp [extraValueToSql]
  refine ⟨?_, ?_, by decide⟩
  · intro hempty
    have hz : jsStringToNumber cval = .int 0 := by
      unfold jsStringToNumber
      rw [strEq_empty_iff] at hempty
      rw [hempty]
    rw [hunf, hz]
    decide
  · rw [hunf]
    cases hfin : (jsStringToNumber cval) with
    | int i =>
      simp only [JsNum.isFinite, if_pos, JsNum.toString]
      exact ⟨fun h => absurd h (intRepr_ne_NULL i), fun h => by simp at h⟩
    | nan => simp [JsNum.isFinite]
    | posInf => simp [JsNum.isFinite]
    | negInf => simp [JsNum.isFinite]

/-- Witness for C10: a whitespace-only number-mode value emits `0`. -/
theorem extraNumber_empty_emits_zero_witness :
    extraValueToSql ⟨"x", "n", true, .number, "  "⟩ defaultOptions = "0" :=
  (extraNumber_empty_emits_zero ⟨"x", "n", true, .number, "  "⟩ defaultOptions rfl).1
    (by decide)

/-! ## Lowercase idempotency (for claim C4) -/

theorem jsToLowerChar_eq_self (x : Char) (h : ¬(65 ≤ x.toNat ∧ x.toNat ≤ 90)) :
    jsToLowerChar x = x := by
  unfold jsToLowerChar
  rw [dif_neg h]

theorem jsToLowerChar_toNat (c : Char) :
    (jsToLowerChar c).toNat =
      if 65 ≤ c.toNat ∧ c.toNat ≤ 90 then c.toNat + 32 else c.toNat := by
  unfold jsToLowerChar
  split
  · rename_i h
    exact UInt32.toNat_ofNat_of_lt (by simp only [UInt32.size]; omega)
  · rfl

theorem jsToLowerChar_idem (c : Char) :
    jsToLowerChar (jsToLowerChar c) = jsToLowerChar c := by
  by_cases h : 65 ≤ c.toNat ∧ c.toNat ≤ 90
  · exact jsToLowerChar_eq_self _ (by rw [jsToLowerChar_toNat, if_pos h]; omega)
  · rw [jsToLowerChar_eq_self c h]
    exact jsToLowerChar_eq_self c h

theorem jsToLower_idem (s : String) : jsToLower (jsToLower s) = jsToLower s := by
  cases s
  simp [jsToLower, List.map_map, Function.comp_def, jsToLowerChar_idem]

/-! ## Claim C4 -/

/-- C4: null-token matching is case-insensitive for configured tokens.
A string cell whose (optionally trimmed) value equals a configured token
under case-insensitive comparison encodes to `NULL`; every token the
configuration pipeline can produce (the defaults and any value typed in
the options form) is its own lowercasing, which makes the verbatim
comparison against the lowercased cell value case-insensitive; in
particular tokens `null`, `n/a` make `N/A` encode to `NULL`. -/
theorem nullToken_matching_case_insensitive :
    (∀ (o : GeneratorOptions) (s token : String),
      token ∈ o.nullTokens → jsToLower token = token →
      jsToLower (if o.trimStrings then jsTrim s else s) = jsToLower token →
      toSqlLiteral (.str s) o = "NULL")
  ∧ (∀ token ∈ defaultOptions.nullTokens, jsToLower token = token)
  ∧ (∀ input : String, ∀ token ∈ parseNullTokens input, jsToLower token = token)
  ∧ toSqlLiteral (.str "N/A")
      { defaultOptions with nullTokens := ["null", "n/a"] } = "NULL" := by
  refine ⟨?_, ?_, ?_, by decide⟩
  · intro o s token hmem hlow hci
    simp only [toSqlLiteral]
    split <;> rename_i htr
    · rw [if_pos htr] at hci
      have hma : (o.nullTokens.any fun t => t == jsToLower (jsTrim s)) = true :=
        List.any_eq_true.mpr ⟨token, hmem, beq_iff_eq.mpr (hci.trans hlow).symm⟩
      simp [hma]
    · rw [if_neg htr] at hci
      have hma : (o.nullTokens.any fun t => t == jsToLower s) = true :=
        List.any_eq_true.mpr ⟨token, hmem, beq_iff_eq.mpr (hci.trans hlow).symm⟩
      simp [hma]
  · intro token hmem
    simp only [defaultOptions, List.mem_cons, List.not_mem_nil, or_false] at hmem
    rcases hmem with rfl | rfl | rfl <;> decide
  · intro input token hmem
    rw [parseNullTokens, List.mem_filter] at hmem
    obtain ⟨x, _, rfl⟩ := List.mem_map.mp hmem.1
    exact jsToLower_idem (jsTrim x)

/-- Witness for C4: the default token `nil` matches the cell
value ` NIL ` (trimmed, case-insensitively). -/
theorem nullToken_matching_case_insensitive_witness :
    toSqlLiteral (.str " NIL ") defaultOptions = "NULL" :=
  nullToken_matching_case_insensitive.1 defaultOptions " NIL " "nil"
    (by decide) (by decide) (by decide)

/-! ## Claim C6 -/

/-- `survivingRows` is idempotent. -/
theorem survivingRows_idem (rows : List (List CellValue)) :
    survivingRows (survivingRows rows) = survivingRows rows := by
  simp [survivingRows, List.filter_filter]

/-- C6: a row is dropped exactly when every one of its cells is null (or
`undefined`, modelled identically) or whitespace-only once converted to
a string; dropped rows contribute nothing (pre-filtering the rows leaves
the script unchanged, so they appear neither in the header count nor as
tuples), and every surviving row contributes exactly one tuple (the
batches flatten back to the per-row tuple list). -/
theorem blank_row_filter_spec (rows : List (List CellValue))
    (columns : List ColumnConfig) (extraColumns : List ExtraColumnConfig)
    (options : GeneratorOptions) :
    (∀ row ∈ rows,
      (row ∉ survivingRows rows ↔
        ∀ cell ∈ row, cell = .null ∨ jsTrim (jsCellString cell) = ""))
  ∧ buildInsertScript rows columns extraColumns options =
      buildInsertScript (survivingRows rows) columns extraColumns options
  ∧ (chunkArray
        ((survivingRows rows).map
          (rowTuple (includedSourceColumns columns)
            (includedExtraColumnsOf extraColumns) options))
        (max 1 options.rowsPerInsert).toNat).flatten =
      (survivingRows rows).map
        (rowTuple (includedSourceColumns columns)
          (includedExtraColumnsOf extraColumns) options) := by
  refine ⟨?_, ?_, chunkArray_join _ _ (batchSize_pos options)⟩
  · intro row hrow
    rw [survivingRows, List.mem_filter]
    simp only [hrow, true_and]
    rw [show (¬rowNonBlank row = true) ↔ rowNonBlank row = false from by simp]
    rw [rowNonBlank, List.any_eq_false]
    constructor
    · intro h cell hc
      have := h cell hc
      cases cell with
      | null => exact Or.inl rfl
      | str s =>
        refine Or.inr ?_
        simpa [cellNonBlank, jsCellString] using this
      | num n =>
        refine Or.inr ?_
        simpa [cellNonBlank, jsCellString] using this
      | bool b =>
        refine Or.inr ?_
        simpa [cellNonBlank, jsCellString] using this
      | date d =>
        refine Or.inr ?_
        simpa [cellNonBlank, jsCellString] using this
    · intro h cell hc
      rcases h cell hc with rfl | hblank
      · simp [cellNonBlank]
      · cases cell with
        | null => simp [cellNonBlank]
        | str s => simp [cellNonBlank, jsCellString] at hblank ⊢; exact hblank
        | num n => simp [cellNonBlank, jsCellString] at hblank ⊢; exact hblank
        | bool b => simp [cellNonBlank, jsCellString] at hblank ⊢; exact hblank
        | date d => simp [cellNonBlank, jsCellString] at hblank ⊢; exact hblank
  · simp only [buildInsertScript, survivingRows_idem]

/-- Witness for C6: a whitespace-only row is dropped while a row with
content survives, and pre-filtering leaves a concrete script unchanged. -/
theorem blank_row_filter_spec_witness :
    ([CellValue.str " ", CellValue.null] ∉
      survivingRows [[CellValue.str " ", CellValue.null], [CellValue.str "x"]])
  ∧ buildInsertScript [[CellValue.str " ", CellValue.null], [CellValue.str "x"]]
      [⟨0, "a", "a", true⟩] [] defaultOptions =
    buildInsertScript
      (survivingRows [[CellValue.str " ", CellValue.null], [CellValue.str "x"]])
      [⟨0, "a", "a", true⟩] [] defaultOptions :=
  ⟨((blank_row_filter_spec [[CellValue.str " ", CellValue.null], [CellValue.str "x"]]
      [⟨0, "a", "a", true⟩] [] defaultOptions).1
      [CellValue.str " ", CellValue.null] (by decide)).mpr (by decide),
    (blank_row_filter_spec [[CellValue.str " ", CellValue.null], [CellValue.str "x"]]
      [⟨0, "a", "a", true⟩] [] defaultOptions).2.1⟩

/-! ## Claim C7 -/

/-- C7: the value tuples are cut into consecutive batches of at most
`max(1, rowsPerInsert)` tuples (all batches non-empty), concatenating
the batches restores the tuple sequence in its original order, and one
`INSERT` statement is emitted per batch; with `rowsPerInsert = 1` and
two rows the output carries two one-tuple `INSERT` statements. -/
theorem batching_spec (rows : List (List CellValue)) (columns : List ColumnConfig)
    (extraColumns : List ExtraColumnConfig) (options : GeneratorOptions) :
    0 < (max 1 options.rowsPerInsert).toNat
  ∧ (chunkArray
        ((survivingRows rows).map
          (rowTuple (includedSourceColumns columns)
            (includedExtraColumnsOf extraColumns) options))
        (max 1 options.rowsPerInsert).toNat).flatten =
      (survivingRows rows).map
        (rowTuple (includedSourceColumns columns)
          (includedExtraColumnsOf extraColumns) options)
  ∧ (∀ c ∈ chunkArray
        ((survivingRows rows).map
          (rowTuple (includedSourceColumns columns)
            (includedExtraColumnsOf extraColumns) options))
        (max 1 options.rowsPerInsert).toNat,
      c ≠ [] ∧ c.length ≤ (max 1 options.rowsPerInsert).toNat)
  ∧ buildInsertScript
      [[.num (.int 1), .str "Ann"], [.num (.int 2), .str "Bea"]]
      [⟨0, "id", "id", true⟩, ⟨1, "name", "name", true⟩] []
      { dialect := .sqlite, tableName := "t", schemaName := "", rowsPerInsert := 1,
        includeColumnList := true, trimStrings := true, emptyStringAsNull := true,
        nullTokens := ["null", "nil", "n/a"] } =
      "-- Generated by RedCoconut SQL Builder\n-- Dialect: sqlite\n-- Rows: 2\n\n" ++
        "INSERT INTO `t` (`id`, `name`)\nVALUES\n(1, " ++ sq ++ "Ann" ++ sq ++ ");\n\n" ++
        "INSERT INTO `t` (`id`, `name`)\nVALUES\n(2, " ++ sq ++ "Bea" ++ sq ++ ");" :=
  ⟨batchSize_pos options,
    chunkArray_join _ _ (batchSize_pos options),
    chunkArray_mem _ _ (batchSize_pos options),
    by decide⟩

/-- Witness for C7 (the batch-shape conjunct binds a batch membership
hypothesis): the first batch of the two-row, batch-size-one example is a
non-empty batch of at most one tuple. -/
theorem batching_spec_witness :
    [rowTuple (includedSourceColumns [⟨0, "id", "id", true⟩])
        (includedExtraColumnsOf []) defaultOptions [CellValue.num (JsNum.int 1)]] ≠
      ([] : List String) ∧
    ([rowTuple (includedSourceColumns [⟨0, "id", "id", true⟩])
        (includedExtraColumnsOf []) defaultOptions [CellValue.num (JsNum.int 1)]]).length ≤
      (max 1 ({ defaultOptions with rowsPerInsert := 1 } : GeneratorOptions).rowsPerInsert).toNat :=
  (batching_spec [[CellValue.num (JsNum.int 1)]] [⟨0, "id", "id", true⟩] []
    { defaultOptions with rowsPerInsert := 1 }).2.2.1 _ (by decide)

/-! ## Claim C8 -/

/-- C8: an `INSERT` statement carries a column list exactly when
`includeColumnList` is set or at least one extra column is included; the
column list is the quoted mapped-column target names followed by the
quoted extra-column target names, and every tuple lists the mapped
source values followed by the extra values in the same order; without a
column list only the raw `VALUES` block follows the table reference. -/
theorem column_list_spec (columns : List ColumnConfig)
    (extraColumns : List ExtraColumnConfig) (options : GeneratorOptions) :
    ((options.includeColumnList ||
        decide ((includedExtraColumnsOf extraColumns).length > 0)) = true ↔
      (options.includeColumnList = true ∨ includedExtraColumnsOf extraColumns ≠ []))
  ∧ (∀ chunk : List String,
      (options.includeColumnList = true ∨ includedExtraColumnsOf extraColumns ≠ []) →
      insertStatement (scriptTableRef options)
        (joinSep ", "
          (((includedSourceColumns columns).map
              fun column => quoteIdentifier column.targetName options.dialect) ++
            ((includedExtraColumnsOf extraColumns).map
              fun column => quoteIdentifier column.targetName options.dialect)))
        (options.includeColumnList ||
          decide ((includedExtraColumnsOf extraColumns).length > 0)) chunk =
      "INSERT INTO " ++ scriptTableRef options ++ " (" ++
        joinSep ", "
          (((includedSourceColumns columns).map
              fun column => quoteIdentifier column.targetName options.dialect) ++
            ((includedExtraColumnsOf extraColumns).map
              fun column => quoteIdentifier column.targetName options.dialect)) ++
        ")\nVALUES\n" ++ joinSep ",\n" chunk ++ ";")
  ∧ (∀ chunk : List String,
      ¬(options.includeColumnList = true ∨ includedExtraColumnsOf extraColumns ≠ []) →
      insertStatement (scriptTableRef options)
        (joinSep ", "
          (((includedSourceColumns columns).map
              fun column => quoteIdentifier column.targetName options.dialect) ++
            ((includedExtraColumnsOf extraColumns).map
              fun column => quoteIdentifier column.targetName options.dialect)))
        (options.includeColumnList ||
          decide ((includedExtraColumnsOf extraColumns).length > 0)) chunk =
      "INSERT INTO " ++ scriptTableRef options ++ "\nVALUES\n" ++
        joinSep ",\n" chunk ++ ";")
  ∧ (∀ row : List CellValue,
      rowTuple (includedSourceColumns columns) (includedExtraColumnsOf extraColumns)
        options row =
      "(" ++
        joinSep ", "
          (((includedSourceColumns columns).map
              fun column => toSqlLiteral (row.getD column.sourceIndex .null) options) ++
            ((includedExtraColumnsOf extraColumns).map
              fun column => extraValueToSql column options)) ++ ")") := by
  have hiff : (options.includeColumnList ||
      decide ((includedExtraColumnsOf extraColumns).length > 0)) = true ↔
      (options.includeColumnList = true ∨ includedExtraColumnsOf extraColumns ≠ []) := by
    rw [Bool.or_eq_true, decide_eq_true_iff]
    constructor
    · rintro (h | h)
      · exact Or.inl h
      · exact Or.inr (by rw [← List.length_pos]; exact h)
    · rintro (h | h)
      · exact Or.inl h
      · exact Or.inr (List.length_pos.mpr h)
  refine ⟨hiff, ?_, ?_, fun row => rfl⟩
  · intro chunk h
    rw [insertStatement, if_pos (hiff.mpr h)]
  · intro chunk h
    rw [insertStatement, if_neg]
    intro hc
    exact h (hiff.mp hc)

/-- Witness for C8: with the column list enabled, a one-column
configuration produces the parenthesized column list. -/
theorem column_list_spec_witness :
    insertStatement (scriptTableRef defaultOptions)
      (joinSep ", "
        (((includedSourceColumns [⟨0, "a", "a", true⟩]).map
            fun column => quoteIdentifier column.targetName defaultOptions.dialect) ++
          ((includedExtraColumnsOf []).map
            fun column => quoteIdentifier column.targetName defaultOptions.dialect)))
      (defaultOptions.includeColumnList ||
        decide ((includedExtraColumnsOf ([] : List ExtraColumnConfig)).length > 0))
      ["(1)"] = "INSERT INTO `my_table` (`a`)\nVALUES\n(1);" :=
  ((column_list_spec [⟨0, "a", "a", true⟩] [] defaultOptions).2.1 ["(1)"]
    (Or.inl rfl)).trans (by decide)

/-! ## Claim C3

The claim describes the output as a fixed TWO-line comment header with
the dialect name and row count; the code emits a THREE-line comment
header (a generator tag line, then the dialect line, then the row-count
line) before the blank line.  The counterexample below exhibits a
concrete non-empty output whose third line is the row-count comment
`-- Rows: 1` rather than the blank line the two-line reading requires.
The amended claim replaces "two-line" with "three-line". -/

theorem strLit_nl_merge (x : String) : ("\n" : String) ++ ("\n" ++ x) = "\n\n" ++ x := by
  rw [← strAppend_assoc, show ("\n" : String) ++ "\n" = "\n\n" from by decide]

/-- Counterexample for C3 as stated: in a concrete non-empty output the
line at index 2 (which a two-line header followed by a blank line would
force to be empty) is the row-count comment, and the comment header has
three lines, not two. -/
theorem header_two_line_counterexample :
    jsSplitChar '\n' (buildInsertScript [[CellValue.num (JsNum.int 1)]]
        [⟨0, "id", "id", true⟩] [] defaultOptions) =
      ["-- Generated by RedCoconut SQL Builder", "-- Dialect: mysql", "-- Rows: 1", "",
        "INSERT INTO `my_table` (`id`)", "VALUES", "(1);"]
  ∧ (jsSplitChar '\n' (buildInsertScript [[CellValue.num (JsNum.int 1)]]
        [⟨0, "id", "id", true⟩] [] defaultOptions)).getD 2 "" ≠ "" := by
  constructor
  · decide
  · decide

/-- C3 (amended): every non-empty output is a fixed THREE-line comment
header — a generator tag line, the dialect name, and the surviving-row
count — then a blank line, then the `INSERT` statements, one per batch,
joined by a blank line. -/
theorem buildInsertScript_header_structure (rows : List (List CellValue))
    (columns : List ColumnConfig) (extraColumns : List ExtraColumnConfig)
    (options : GeneratorOptions)
    (h : buildInsertScript rows columns extraColumns options ≠ "") :
    buildInsertScript rows columns extraColumns options =
      "-- Generated by RedCoconut SQL Builder" ++ "\n" ++
        ("-- Dialect: " ++ dialectName options.dialect) ++ "\n" ++
        ("-- Rows: " ++ natRepr (survivingRows rows).length) ++ "\n\n" ++
        joinSep "\n\n"
          ((chunkArray
              ((survivingRows rows).map
                (rowTuple (includedSourceColumns columns)
                  (includedExtraColumnsOf extraColumns) options))
              (max 1 options.rowsPerInsert).toNat).map
            (insertStatement (scriptTableRef options)
              (joinSep ", "
                (((includedSourceColumns columns).map
                    fun column => quoteIdentifier column.targetName options.dialect) ++
                  ((includedExtraColumnsOf extraColumns).map
                    fun column => quoteIdentifier column.targetName options.dialect)))
              (options.includeColumnList ||
                decide ((includedExtraColumnsOf extraColumns).length > 0)))) := by
  have h1 : normalizeIdentifier options.tableName ≠ "" := by
    intro hc
    exact h (script_empty_of_degenerate _ _ _ _ (Or.inl hc))
  have h2 : ¬(includedSourceColumns columns = [] ∧
      includedExtraColumnsOf extraColumns = []) := by
    intro hc
    exact h (script_empty_of_degenerate _ _ _ _ (Or.inr (Or.inl hc)))
  have h3 : survivingRows rows ≠ [] := by
    intro hc
    exact h (script_empty_of_degenerate _ _ _ _ (Or.inr (Or.inr hc)))
  rw [script_eq_of_guards rows columns extraColumns options h1 h2 h3]
  simp only [joinSep_cons_cons, joinSep_singleton, strAppend_assoc, strEmpty_append,
    strLit_nl_merge]

/-- Witness for C3 (amended): the structural equation instantiated at a
concrete input, fully evaluated. -/
theorem buildInsertScript_header_structure_witness :
    buildInsertScript [[CellValue.num (JsNum.int 1)]] [⟨0, "id", "id", true⟩] []
        defaultOptions =
      "-- Generated by RedCoconut SQL Builder\n-- Dialect: mysql\n-- Rows: 1\n\n" ++
        "INSERT INTO `my_table` (`id`)\nVALUES\n(1);" :=
  (buildInsertScript_header_structure [[CellValue.num (JsNum.int 1)]]
    [⟨0, "id", "id", true⟩] [] defaultOptions (by decide)).trans (by decide)

/-! ## Claim C1 -/

/-- C1: the Literal Encoder applies its rules in priority order — null
(and `undefined`, modelled identically) gives `NULL`; a date gives the
single-quoted `YYYY-MM-DD HH:MM:SS` literal built from its UTC fields,
truncated to seconds; a finite number gives its decimal string and a
non-finite number gives `NULL`; any other value is a string, trimmed
exactly when `trimStrings` is set, mapped to `NULL` when the result is
empty and `emptyStringAsNull` is set or when its lowercasing is a
configured null token, and otherwise single-quoted with every embedded
single quote doubled — in particular the name OBrien with a quote
between O and B gains a doubled quote inside its quoted literal. -/
theorem toSqlLiteral_priority_rules (o : GeneratorOptions) :
    toSqlLiteral .null o = "NULL"
  ∧ (∀ d : JsDate, toSqlLiteral (.date d) o =
      sq ++ (pad4 d.year ++ "-" ++ pad2 d.month ++ "-" ++ pad2 d.day ++ " " ++
        pad2 d.hour ++ ":" ++ pad2 d.minute ++ ":" ++ pad2 d.second) ++ sq)
  ∧ (∀ i : Int, toSqlLiteral (.num (.int i)) o = intRepr i)
  ∧ toSqlLiteral (.num .nan) o = "NULL"
  ∧ toSqlLiteral (.num .posInf) o = "NULL"
  ∧ toSqlLiteral (.num .negInf) o = "NULL"
  ∧ (∀ s : String,
      toSqlLiteral (.str s) o =
        (let sv := if o.trimStrings then jsTrim s else s
         if o.emptyStringAsNull ∧ sv = "" then "NULL"
         else if jsToLower sv ∈ o.nullTokens then "NULL"
         else sq ++
            (⟨sv.data.flatMap fun c => if c = squote then [squote, squote] else [c]⟩ :
              String) ++ sq))
  ∧ toSqlLiteral (.str ⟨['O', squote, 'B', 'r', 'i', 'e', 'n']⟩)
      { defaultOptions with dialect := .postgresql } =
      sq ++ (⟨['O', squote, squote, 'B', 'r', 'i', 'e', 'n']⟩ : String) ++ sq := by
  refine ⟨rfl, ?_, fun i => rfl, rfl, rfl, rfl, ?_, by decide⟩
  · intro d
    have hT : ∀ n, digitChar10 n ≠ 'T' := fun n => digitChar10_ne n 'T' (by decide)
    have hiso : d.toISOString.data =
        digitChar10 (d.year / 1000) :: digitChar10 (d.year / 100 % 10) ::
        digitChar10 (d.year / 10 % 10) :: digitChar10 (d.year % 10) :: '-' ::
        digitChar10 (d.month / 10) :: digitChar10 (d.month % 10) :: '-' ::
        digitChar10 (d.day / 10) :: digitChar10 (d.day % 10) :: 'T' ::
        digitChar10 (d.hour / 10) :: digitChar10 (d.hour % 10) :: ':' ::
        digitChar10 (d.minute / 10) :: digitChar10 (d.minute % 10) :: ':' ::
        digitChar10 (d.second / 10) :: digitChar10 (d.second % 10) :: '.' ::
        digitChar10 (d.ms / 100) :: digitChar10 (d.ms / 10 % 10) ::
        digitChar10 (d.ms % 10) :: ['Z'] := rfl
    show sq ++ jsSlice ⟨replaceFirstChar 'T' ' ' d.toISOString.data⟩ 19 ++ sq = _
    rw [hiso]
    simp only [replaceFirstChar, hT, if_false, reduceIte]
    rfl
  · intro s
    simp only [toSqlLiteral]
    refine if_congr ?_ rfl (if_congr ?_ rfl ?_)
    · constructor
      · rintro ⟨he, hl⟩
        refine ⟨he, ?_⟩
        rw [strEq_empty_iff]
        exact List.length_eq_zero.mp hl
      · rintro ⟨he, hl⟩
        refine ⟨he, ?_⟩
        rw [strEq_empty_iff] at hl
        rw [strLength_eq, hl]
        rfl
    · constructor
      · intro h
        obtain ⟨t, ht, hbeq⟩ := List.any_eq_true.mp h
        exact beq_iff_eq.mp hbeq ▸ ht
      · intro h
        exact List.any_eq_true.mpr ⟨_, h, beq_iff_eq.mpr rfl⟩
    · rw [replaceAllChar_eq_bind]

/-! ## The Identifier Normalizer joins whitespace-words with underscores -/

theorem length_dropWhile_le (p : Char → Bool) (l : List Char) :
    (l.dropWhile p).length ≤ l.length := by
  induction l with
  | nil => simp
  | cons c rest ih =>
    rw [List.dropWhile_cons]
    split
    · exact Nat.le_trans ih (by simp)
    · simp

theorem wordsGo_nil (fuel : Nat) : wordsGo fuel [] = [] := by
  cases fuel <;> rfl

theorem wordsGo_fuel2 : ∀ (f1 f2 : Nat) (l : List Char), l.length ≤ f1 → l.length ≤ f2 →
    wordsGo f1 l = wordsGo f2 l := by
  intro f1
  induction f1 with
  | zero =>
    intro f2 l h1 h2
    have : l = [] := List.length_eq_zero.mp (Nat.le_zero.mp h1)
    subst this
    cases f2 <;> rfl
  | succ f1 ih =>
    intro f2 l h1 h2
    cases l with
    | nil => cases f2 <;> rfl
    | cons c rest =>
      cases f2 with
      | zero => simp at h2
      | succ f2 =>
        simp only [wordsGo]
        simp only [List.length_cons] at h1 h2
        by_cases hw : c.isWhitespace
        · rw [if_pos hw, if_pos hw]
          exact ih f2 rest (by omega) (by omega)
        · rw [if_neg hw, if_neg hw]
          congr 1
          have hd := length_dropWhile_le nonWsChar rest
          exact ih f2 _ (by omega) (by omega)

theorem wordsGo_all_ws (fuel : Nat) (l : List Char)
    (h : ∀ c ∈ l, c.isWhitespace = true) : wordsGo fuel l = [] := by
  induction fuel generalizing l with
  | zero => rfl
  | succ fuel ih =>
    cases l with
    | nil => rfl
    | cons c rest =>
      simp only [wordsGo]
      rw [if_pos (h c (by simp))]
      exact ih rest (fun x hx => h x (by simp [hx]))

theorem wordsGo_ne_nil (fuel : Nat) (l : List Char) (hf : l.length ≤ fuel)
    (c : Char) (hc : c ∈ l) (hw : c.isWhitespace = false) :
    wordsGo fuel l ≠ [] := by
  induction fuel generalizing l with
  | zero =>
    have : l = [] := List.length_eq_zero.mp (Nat.le_zero.mp hf)
    subst this
    simp at hc
  | succ fuel ih =>
    cases l with
    | nil => simp at hc
    | cons d rest =>
      simp only [wordsGo]
      by_cases hd : d.isWhitespace
      · rw [if_pos hd]
        have hcr : c ∈ rest := by
          rcases List.mem_cons.mp hc with rfl | h
        
          · rw [hd] at hw; cases hw
          · exact h
        exact ih rest (by simpa using hf) hcr
      · rw [if_neg hd]
        simp

theorem getLast?_cons_of_ne_nil {c : Char} {rest : List Char} (h : rest ≠ []) :
    (c :: rest).getLast? = rest.getLast? := by
  cases rest with
  | nil => exact absurd rfl h
  | cons x xs => simp

theorem getLast?_dropWhile_of_ne_nil (q : Char → Bool) (l : List Char)
    (h : l.dropWhile q ≠ []) : (l.dropWhile q).getLast? = l.getLast? := by
  induction l with
  | nil => simp at h
  | cons c rest ih =>
    rw [List.dropWhile_cons]
    rw [List.dropWhile_cons] at h
    split
    · rename_i hq
      rw [if_pos hq] at h
      have hrest : rest ≠ [] := by
        intro he
        rw [he] at h
        simp at h
      rw [ih h, getLast?_cons_of_ne_nil hrest]
    · rfl

theorem collapse_words_aux : ∀ (n : Nat) (l : List Char), l.length ≤ n →
    (∀ c, l.getLast? = some c → c.isWhitespace = false) →
    (collapseWsGo true l = joinUnderscore (wordsGo l.length l)
  ∧ collapseWsGo false l = l.takeWhile nonWsChar ++
      (if l.dropWhile nonWsChar = [] then []
       else '_' :: joinUnderscore
          (wordsGo (l.dropWhile nonWsChar).length (l.dropWhile nonWsChar)))) := by
  intro n
  induction n with
  | zero =>
    intro l hl htr
    have : l = [] := List.length_eq_zero.mp (Nat.le_zero.mp hl)
    subst this
    exact ⟨rfl, rfl⟩
  | succ n ih =>
    intro l hl htr
    cases l with
    | nil => exact ⟨rfl, rfl⟩
    | cons c rest =>
      have hrest_len : rest.length ≤ n := by simpa using hl
      by_cases hw : c.isWhitespace
      · -- whitespace head
        have hrest_ne : rest ≠ [] := by
          intro he
          subst he
          have := htr c rfl
          rw [this] at hw
          cases hw
        have htr2 : ∀ x, rest.getLast? = some x → x.isWhitespace = false := by
          intro x hx
          exact htr x (by rw [getLast?_cons_of_ne_nil hrest_ne, hx])
        obtain ⟨ihT, _⟩ := ih rest hrest_len htr2
        have hwords : wordsGo (c :: rest).length (c :: rest) = wordsGo rest.length rest := by
          show wordsGo (rest.length + 1) (c :: rest) = _
          simp only [wordsGo]
          rw [if_pos hw]
        constructor
        · rw [show collapseWsGo true (c :: rest) = collapseWsGo true rest from by
            simp [collapseWsGo, hw], ihT, hwords]
        · have h1 : collapseWsGo false (c :: rest) = '_' :: collapseWsGo true rest := by
            simp [collapseWsGo, hw]
          have h2 : (c :: rest).takeWhile nonWsChar = [] := by
            simp [List.takeWhile_cons, nonWsChar, hw]
          have h3 : (c :: rest).dropWhile nonWsChar = c :: rest := by
            simp [List.dropWhile_cons, nonWsChar, hw]
          rw [h1, h2, h3, if_neg (by simp)]
          simp only [List.nil_append]
          congr 1
          rw [ihT, hwords]
      · -- non-whitespace head
        have htr2 : ∀ x, rest.getLast? = some x → x.isWhitespace = false := by
          intro x hx
          have hne : rest ≠ [] := by
            intro he
            rw [he] at hx
            simp at hx
          exact htr x (by rw [getLast?_cons_of_ne_nil hne, hx])
        obtain ⟨_, ihF⟩ := ih rest hrest_len htr2
        have hstep : ∀ b, collapseWsGo b (c :: rest) = c :: collapseWsGo false rest := by
          intro b
          cases b <;> simp [collapseWsGo, hw]
        have hwords : wordsGo (c :: rest).length (c :: rest) =
            (c :: rest.takeWhile nonWsChar) ::
              wordsGo (rest.dropWhile nonWsChar).length (rest.dropWhile nonWsChar) := by
          show wordsGo (rest.length + 1) (c :: rest) = _
          simp only [wordsGo]
          rw [if_neg hw]
          congr 1
          exact wordsGo_fuel2 rest.length _ _ (length_dropWhile_le _ _) (Nat.le_refl _)
        have hfalse : collapseWsGo false (c :: rest) =
            (c :: rest).takeWhile nonWsChar ++
              (if (c :: rest).dropWhile nonWsChar = [] then []
               else '_' :: joinUnderscore
                  (wordsGo ((c :: rest).dropWhile nonWsChar).length
                    ((c :: rest).dropWhile nonWsChar))) := by
          have ht : (c :: rest).takeWhile nonWsChar = c :: rest.takeWhile nonWsChar := by
            simp [List.takeWhile_cons, nonWsChar, hw]
          have hd : (c :: rest).dropWhile nonWsChar = rest.dropWhile nonWsChar := by
            simp [List.dropWhile_cons, nonWsChar, hw]
          rw [hstep, ihF, ht, hd]
          simp [List.cons_append]
        refine ⟨?_, hfalse⟩
        rw [hstep, ihF, hwords]
        by_cases hdn : rest.dropWhile nonWsChar = []
        · rw [if_pos hdn, hdn]
          show c :: (rest.takeWhile nonWsChar ++ []) = joinUnderscore [c :: rest.takeWhile nonWsChar]
          simp [joinUnderscore]
        · rw [if_neg hdn]
          have hwne : wordsGo (rest.dropWhile nonWsChar).length (rest.dropWhile nonWsChar) ≠ [] := by
            have hlast : (rest.dropWhile nonWsChar).getLast? = rest.getLast? :=
              getLast?_dropWhile_of_ne_nil _ _ hdn
            obtain ⟨x, hx⟩ : ∃ x, (rest.dropWhile nonWsChar).getLast? = some x := by
              cases hgl : (rest.dropWhile nonWsChar).getLast? with
              | none => exact absurd (List.getLast?_eq_none_iff.mp hgl) hdn
              | some x => exact ⟨x, rfl⟩
            have hxw : x.isWhitespace = false := htr2 x (by rw [← hlast, hx])
            exact wordsGo_ne_nil _ _ (Nat.le_refl _) x (List.mem_of_getLast?_eq_some hx) hxw
          obtain ⟨w, ws2, hws⟩ := List.exists_cons_of_ne_nil hwne
          rw [hws]
          show c :: (rest.takeWhile nonWsChar ++ '_' :: joinUnderscore (w :: ws2)) =
            joinUnderscore ((c :: rest.takeWhile nonWsChar) :: w :: ws2)
          simp [joinUnderscore]


theorem collapse_false_join (l : List Char)
    (htr : ∀ c, l.getLast? = some c → c.isWhitespace = false)
    (hlead : ∀ c, l.head? = some c → c.isWhitespace = false) :
    collapseWsGo false l = joinUnderscore (wordsGo l.length l) := by
  cases l with
  | nil => rfl
  | cons c rest =>
    have hw : c.isWhitespace = false := hlead c rfl
    have : collapseWsGo false (c :: rest) = collapseWsGo true (c :: rest) := by
      simp [collapseWsGo, hw]
    rw [this]
    exact (collapse_words_aux (c :: rest).length (c :: rest) (Nat.le_refl _) htr).1

/-- Dropping a leading whitespace run does not change the words. -/
theorem wordsGo_dropWhile_ws (l : List Char) :
    wordsGo (l.dropWhile Char.isWhitespace).length (l.dropWhile Char.isWhitespace) =
      wordsGo l.length l := by
  induction l with
  | nil => rfl
  | cons c rest ih =>
    rw [List.dropWhile_cons]
    by_cases hw : c.isWhitespace
    · rw [if_pos hw]
      rw [ih]
      show _ = wordsGo (rest.length + 1) (c :: rest)
      simp only [wordsGo]
      rw [if_pos hw]
    · rw [if_neg hw]

/-- Appending a trailing whitespace run does not change the words. -/
theorem wordsGo_append_ws_run : ∀ (n : Nat) (l1 r : List Char), l1.length ≤ n →
    (∀ c ∈ r, c.isWhitespace = true) →
    wordsGo (l1 ++ r).length (l1 ++ r) = wordsGo l1.length l1 := by
  intro n
  induction n with
  | zero =>
    intro l1 r h1 hr
    have : l1 = [] := List.length_eq_zero.mp (Nat.le_zero.mp h1)
    subst this
    simp only [List.nil_append]
    exact wordsGo_all_ws _ _ hr
  | succ n ih =>
    intro l1 r h1 hr
    cases l1 with
    | nil =>
      simp only [List.nil_append]
      exact wordsGo_all_ws _ _ hr
    | cons c rest =>
      have hrest_len : rest.length ≤ n := by simpa using h1
      have hrtake : r.takeWhile nonWsChar = [] := by
        cases r with
        | nil => rfl
        | cons x xs =>
          rw [List.takeWhile_cons, if_neg]
          simp [nonWsChar, hr x (by simp)]
      have hrdrop : r.dropWhile nonWsChar = r := by
        cases r with
        | nil => rfl
        | cons x xs =>
          rw [List.dropWhile_cons, if_neg]
          simp [nonWsChar, hr x (by simp)]
      by_cases hw : c.isWhitespace
      · -- skip whitespace head on both sides
        show wordsGo ((rest ++ r).length + 1) (c :: (rest ++ r)) =
          wordsGo (rest.length + 1) (c :: rest)
        simp only [wordsGo]
        rw [if_pos hw, if_pos hw]
        exact ih rest r hrest_len hr
      · rw [show (c :: rest) ++ r = c :: (rest ++ r) from rfl]
        show wordsGo ((rest ++ r).length + 1) (c :: (rest ++ r)) =
          wordsGo (rest.length + 1) (c :: rest)
        simp only [wordsGo]
        rw [if_neg hw, if_neg hw]
        by_cases hdn : rest.dropWhile nonWsChar = []
        · -- rest is all non-whitespace
          have htake_rest : rest.takeWhile nonWsChar = rest := by
            have := List.takeWhile_append_dropWhile (p := nonWsChar) (l := rest)
            rw [hdn, List.append_nil] at this
            exact this
          have htake : (rest ++ r).takeWhile nonWsChar = rest := by
            rw [List.takeWhile_append]
            rw [htake_rest]
            rw [if_pos rfl, hrtake, List.append_nil]
          have hdrop : (rest ++ r).dropWhile nonWsChar = r := by
            rw [List.dropWhile_append, if_pos (by simp [hdn]), hrdrop]
          rw [htake, hdrop, htake_rest, hdn]
          congr 1
          rw [wordsGo_all_ws _ _ hr, wordsGo_nil]
        · have hlen_ne : ¬(rest.takeWhile nonWsChar).length = rest.length := by
            intro he
            have hsum := congrArg List.length (List.takeWhile_append_dropWhile (p := nonWsChar) (l := rest))
            rw [List.length_append] at hsum
            have : (rest.dropWhile nonWsChar).length = 0 := by omega
            exact hdn (List.length_eq_zero.mp this)
          have htake : (rest ++ r).takeWhile nonWsChar = rest.takeWhile nonWsChar := by
            rw [List.takeWhile_append, if_neg hlen_ne]
          have hdrop : (rest ++ r).dropWhile nonWsChar = rest.dropWhile nonWsChar ++ r := by
            rw [List.dropWhile_append, if_neg (by simp [hdn])]
          rw [htake, hdrop]
          congr 1
          rw [wordsGo_fuel2 (rest ++ r).length _ _
            (by rw [← hdrop]; exact length_dropWhile_le _ _) (Nat.le_refl _)]
          rw [wordsGo_fuel2 rest.length _ _ (length_dropWhile_le _ _) (Nat.le_refl _)]
          exact ih (rest.dropWhile nonWsChar) r
            (Nat.le_trans (length_dropWhile_le _ _) hrest_len) hr

/-- `normalizeIdentifier` equals the whitespace-words joined by single
underscores. -/
theorem normalizeIdentifier_eq_joinWords (s : String) :
    normalizeIdentifier s = ⟨joinUnderscore (wordsOf s)⟩ := by
  have hrepr : normalizeIdentifier s =
      ⟨collapseWsGo false
        (((s.data.dropWhile Char.isWhitespace).reverse.dropWhile
            Char.isWhitespace).reverse)⟩ := rfl
  rw [hrepr]
  rw [strMk_eq_iff]
  -- abbreviations by hand
  have hdec : s.data.dropWhile Char.isWhitespace =
      ((s.data.dropWhile Char.isWhitespace).reverse.dropWhile Char.isWhitespace).reverse ++
        ((s.data.dropWhile Char.isWhitespace).reverse.takeWhile Char.isWhitespace).reverse := by
    conv_lhs => rw [← List.reverse_reverse (s.data.dropWhile Char.isWhitespace),
      ← List.takeWhile_append_dropWhile (p := Char.isWhitespace)
        (l := (s.data.dropWhile Char.isWhitespace).reverse)]
    rw [List.reverse_append]
  have hws_run : ∀ c ∈ ((s.data.dropWhile Char.isWhitespace).reverse.takeWhile
      Char.isWhitespace).reverse, c.isWhitespace = true := by
    intro c hc
    rw [List.mem_reverse] at hc
    exact List.mem_takeWhile_imp hc
  have htrailT : ∀ c,
      (((s.data.dropWhile Char.isWhitespace).reverse.dropWhile
        Char.isWhitespace).reverse).getLast? = some c → c.isWhitespace = false := by
    intro c hc
    rw [List.getLast?_reverse] at hc
    have hmatch := List.head?_dropWhile_not Char.isWhitespace
      ((s.data.dropWhile Char.isWhitespace).reverse)
    rw [hc] at hmatch
    exact hmatch
  have hleadT : ∀ c,
      (((s.data.dropWhile Char.isWhitespace).reverse.dropWhile
        Char.isWhitespace).reverse).head? = some c → c.isWhitespace = false := by
    intro c hc
    -- the trimmed list is a prefix of the leading-trimmed list, whose head is non-ws
    have hh : (s.data.dropWhile Char.isWhitespace).head? = some c := by
      cases hcase : ((s.data.dropWhile Char.isWhitespace).reverse.dropWhile
          Char.isWhitespace).reverse with
      | nil =>
        rw [hcase] at hc
        exact absurd hc (by simp)
      | cons x xs =>
        rw [hcase] at hc
        simp only [List.head?_cons, Option.some.injEq] at hc
        rw [hdec, hcase]
        simp [hc]
    have hmatch := List.head?_dropWhile_not Char.isWhitespace s.data
    rw [hh] at hmatch
    exact hmatch
  rw [collapse_false_join _ htrailT hleadT]
  congr 1
  have h1 : wordsGo (s.data.dropWhile Char.isWhitespace).length
      (s.data.dropWhile Char.isWhitespace) =
      wordsGo (((s.data.dropWhile Char.isWhitespace).reverse.dropWhile
        Char.isWhitespace).reverse).length
        (((s.data.dropWhile Char.isWhitespace).reverse.dropWhile
          Char.isWhitespace).reverse) := by
    conv_lhs => rw [hdec]
    exact wordsGo_append_ws_run _ _ _ (Nat.le_refl _) hws_run
  rw [← h1, wordsGo_dropWhile_ws]
  rfl

/-! ## Claim C5 -/

/-- C5: `quoteIdentifier` first normalizes (trim plus collapsing each
internal whitespace run to one underscore); an empty normalization gives
the empty string for every dialect; otherwise the normalized name is
wrapped in backticks doubling embedded backticks for mysql and sqlite,
in square brackets doubling embedded `]` for sqlserver, and in double
quotes doubling embedded `"` for postgresql.  Normalization is exactly
joining the maximal whitespace-free runs with single underscores. -/
theorem quoteIdentifier_spec :
    (∀ s : String, normalizeIdentifier s = ⟨joinUnderscore (wordsOf s)⟩)
  ∧ (∀ (s : String) (d : SqlDialect),
      quoteIdentifier s d =
        if normalizeIdentifier s = "" then ""
        else if d = .mysql ∨ d = .sqlite then
          "`" ++
            (⟨(normalizeIdentifier s).data.flatMap
                fun c => if c = bquote then [bquote, bquote] else [c]⟩ : String) ++ "`"
        else if d = .sqlserver then
          "[" ++
            (⟨(normalizeIdentifier s).data.flatMap
                fun c => if c = ']' then [']', ']'] else [c]⟩ : String) ++ "]"
        else
          "\"" ++
            (⟨(normalizeIdentifier s).data.flatMap
                fun c => if c = '"' then ['"', '"'] else [c]⟩ : String) ++ "\"")
  ∧ (∀ d : SqlDialect, quoteIdentifier "" d = "")
  ∧ (∀ d : SqlDialect, quoteIdentifier "   " d = "")
  ∧ normalizeIdentifier " a \t\n b " = "a_b"
  ∧ quoteIdentifier "a b" .mysql = "`a_b`"
  ∧ quoteIdentifier "a b" .sqlite = "`a_b`"
  ∧ quoteIdentifier "a b" .sqlserver = "[a_b]"
  ∧ quoteIdentifier "a b" .postgresql = "\"a_b\""
  ∧ quoteIdentifier "a]b" .sqlserver = "[a]]b]"
  ∧ quoteIdentifier "a\"b" .postgresql = "\"a\"\"b\"" := by
  refine ⟨normalizeIdentifier_eq_joinWords, ?_, ?_, ?_, by decide, by decide,
    by decide, by decide, by decide, by decide, by decide⟩
  · intro s d
    simp only [quoteIdentifier, replaceAllChar_eq_bind]
  · intro d
    cases d <;> decide
  · intro d
    cases d <;> decide

end RedCoconut
